import Mathlib

/-!
Verification of the pychain standard-library contracts (Token, NFT,
Ownable, ReentrancyGuard, Burnable) against their specification.

The Python dictionaries used for contract storage are embedded as
association lists with Python-dict semantics: `dget` is `d.get(k)`,
`dset` is `d[k] = v` (updates the existing entry in place, otherwise
appends, matching dict insertion order), `ddel` is `del d[k]`
(removes the unique entry for the key; dict keys are unique, which the
`KeysNodup` predicate expresses for states supplied from outside).
Machine state reached through the host storage facade is passed
explicitly; the caller identity resolved by the host (`msg_sender`) is
an explicit `sender` argument of every operation, and emitted events
are accumulated in an `events` field of each contract state.
Operations return `Res.ok s` on success and `Res.err e s` on a raised
exception, where `s` is the state at the moment of the raise (Python
does not roll back mutations made before an exception).
-/

/-- Python `d.get(k)`: the value stored at the first entry for key `k`. -/
def dget [DecidableEq α] : List (α × β) → α → Option β
  | [], _ => none
  | (k₁, v₁) :: rest, k => if k = k₁ then some v₁ else dget rest k

/-- Python `d[k] = v`: replace the entry for `k` in place, or append a new entry. -/
def dset [DecidableEq α] : List (α × β) → α → β → List (α × β)
  | [], k, v => [(k, v)]
  | (k₁, v₁) :: rest, k, v =>
      if k = k₁ then (k, v) :: rest else (k₁, v₁) :: dset rest k v

/-- Python `del d[k]`: remove the first entry for `k` (the only one in a dict). -/
def ddel [DecidableEq α] : List (α × β) → α → List (α × β)
  | [], _ => []
  | (k₁, v₁) :: rest, k => if k = k₁ then rest else (k₁, v₁) :: ddel rest k

/-- Python `k in d`. -/
def dmem [DecidableEq α] (d : List (α × β)) (k : α) : Bool :=
  (dget d k).isSome

/-- Python `d.get(k, dflt)`. -/
def dgetD [DecidableEq α] (d : List (α × β)) (k : α) (dflt : β) : β :=
  (dget d k).getD dflt

/-- Python `sum(d.values())` for an integer-valued dict. -/
def vsum : List (α × Int) → Int
  | [] => 0
  | (_, v) :: rest => v + vsum rest

/-- Dict well-formedness: keys occur at most once (always true of a Python dict). -/
def KeysNodup (d : List (α × β)) : Prop :=
  (d.map Prod.fst).Nodup

instance [DecidableEq α] (d : List (α × β)) : Decidable (KeysNodup d) := by
  unfold KeysNodup; infer_instance

theorem dget_dset_self [DecidableEq α] (d : List (α × β)) (k : α) (v : β) :
    dget (dset d k v) k = some v := by
  induction d with
  | nil => simp [dget, dset]
  | cons p rest ih =>
    obtain ⟨k₁, v₁⟩ := p
    by_cases h : k = k₁ <;> simp [dget, dset, h, ih]

theorem dget_dset_ne [DecidableEq α] (d : List (α × β)) (k k' : α) (v : β)
    (h : k' ≠ k) : dget (dset d k v) k' = dget d k' := by
  induction d with
  | nil => simp [dget, dset, h]
  | cons p rest ih =>
    obtain ⟨k₁, v₁⟩ := p
    by_cases h₁ : k = k₁
    · subst h₁; simp [dget, dset, h]
    · by_cases h₂ : k' = k₁ <;> simp [dget, dset, h₁, h₂, ih]

theorem vsum_dset [DecidableEq α] (d : List (α × Int)) (k : α) (v : Int) :
    vsum (dset d k v) = vsum d + v - (dget d k).getD 0 := by
  induction d with
  | nil => simp [vsum, dset, dget]
  | cons p rest ih =>
    obtain ⟨k₁, v₁⟩ := p
    by_cases h : k = k₁
    · simp [vsum, dset, dget, h]; ring
    · simp [vsum, dset, dget, h, ih]; ring

theorem dget_eq_none_of_not_mem_keys [DecidableEq α] (d : List (α × β)) (k : α)
    (h : k ∉ d.map Prod.fst) : dget d k = none := by
  induction d with
  | nil => simp [dget]
  | cons p rest ih =>
    obtain ⟨k₁, v₁⟩ := p
    simp only [List.map_cons, List.mem_cons] at h
    push_neg at h
    simp [dget, h.1, ih h.2]

theorem not_mem_keys_of_dget_eq_none [DecidableEq α] (d : List (α × β)) (k : α)
    (h : dget d k = none) : k ∉ d.map Prod.fst := by
  induction d with
  | nil => simp
  | cons p rest ih =>
    obtain ⟨k₁, v₁⟩ := p
    by_cases h₁ : k = k₁
    · simp [dget, h₁] at h
    · simp only [dget, if_neg h₁] at h
      simp [h₁, ih h]

theorem dset_of_dget_none [DecidableEq α] (d : List (α × β)) (k : α) (v : β)
    (h : dget d k = none) : dset d k v = d ++ [(k, v)] := by
  induction d with
  | nil => simp [dset]
  | cons p rest ih =>
    obtain ⟨k₁, v₁⟩ := p
    by_cases h₁ : k = k₁
    · simp [dget, h₁] at h
    · simp only [dget, if_neg h₁] at h
      simp [dset, h₁, ih h]

theorem countP_dset_of_dget_some [DecidableEq α] (p : α × β → Bool)
    (d : List (α × β)) (k : α) (v w : β) (h : dget d k = some w) :
    (dset d k v).countP p + (if p (k, w) then 1 else 0)
      = d.countP p + (if p (k, v) then 1 else 0) := by
  induction d with
  | nil => simp [dget] at h
  | cons q rest ih =>
    obtain ⟨k₁, v₁⟩ := q
    by_cases h₁ : k = k₁
    · subst h₁
      have hw₁ : v₁ = w := by simpa [dget] using h
      subst hw₁
      simp only [dset, if_pos rfl, List.countP_cons]
      by_cases hv : p (k, v) <;> by_cases hw : p (k, v₁) <;> simp [hv, hw]
    · simp only [dget, if_neg h₁] at h
      simp only [dset, if_neg h₁, List.countP_cons]
      have := ih h
      omega

theorem countP_ddel_of_dget_some [DecidableEq α] (p : α × β → Bool)
    (d : List (α × β)) (k : α) (w : β) (h : dget d k = some w) :
    (ddel d k).countP p + (if p (k, w) then 1 else 0) = d.countP p := by
  induction d with
  | nil => simp [dget] at h
  | cons q rest ih =>
    obtain ⟨k₁, v₁⟩ := q
    by_cases h₁ : k = k₁
    · subst h₁
      have hw₁ : v₁ = w := by simpa [dget] using h
      subst hw₁
      simp [ddel, List.countP_cons]
    · simp only [dget, if_neg h₁] at h
      simp only [ddel, if_neg h₁, List.countP_cons]
      have := ih h
      omega

theorem length_ddel_of_dget_some [DecidableEq α] (d : List (α × β)) (k : α)
    (w : β) (h : dget d k = some w) :
    (ddel d k).length + 1 = d.length := by
  induction d with
  | nil => simp [dget] at h
  | cons q rest ih =>
    obtain ⟨k₁, v₁⟩ := q
    by_cases h₁ : k = k₁
    · simp [ddel, h₁]
    · simp only [dget, if_neg h₁] at h
      simp only [ddel, if_neg h₁, List.length_cons]
      have := ih h
      omega

theorem length_dset_of_dget_some [DecidableEq α] (d : List (α × β)) (k : α)
    (v w : β) (h : dget d k = some w) :
    (dset d k v).length = d.length := by
  induction d with
  | nil => simp [dget] at h
  | cons q rest ih =>
    obtain ⟨k₁, v₁⟩ := q
    by_cases h₁ : k = k₁
    · simp [dset, h₁]
    · simp only [dget, if_neg h₁] at h
      simp [dset, h₁, ih h]

theorem dget_ddel_ne [DecidableEq α] (d : List (α × β)) (k k' : α)
    (h : k' ≠ k) : dget (ddel d k) k' = dget d k' := by
  induction d with
  | nil => simp [ddel]
  | cons p rest ih =>
    obtain ⟨k₁, v₁⟩ := p
    by_cases h₁ : k = k₁
    · subst h₁; simp [ddel, dget, h]
    · by_cases h₂ : k' = k₁ <;> simp [ddel, dget, h₁, h₂, ih]

theorem dget_ddel_self [DecidableEq α] (d : List (α × β)) (k : α)
    (hn : KeysNodup d) : dget (ddel d k) k = none := by
  induction d with
  | nil => simp [ddel, dget]
  | cons p rest ih =>
    obtain ⟨k₁, v₁⟩ := p
    simp only [KeysNodup, List.map_cons, List.nodup_cons] at hn
    by_cases h₁ : k = k₁
    · subst h₁
      simp only [ddel, if_pos rfl]
      exact dget_eq_none_of_not_mem_keys rest k hn.1
    · simp [ddel, dget, h₁, ih hn.2]

theorem dget_mem [DecidableEq α] (d : List (α × β)) (k : α) (v : β)
    (h : dget d k = some v) : (k, v) ∈ d := by
  induction d with
  | nil => simp [dget] at h
  | cons p rest ih =>
    obtain ⟨k₁, v₁⟩ := p
    by_cases h₁ : k = k₁
    · subst h₁
      have hv₁ : v₁ = v := by simpa [dget] using h
      simp [hv₁]
    · simp only [dget, if_neg h₁] at h
      simp [ih h]

/-- The reserved zero address sentinel used throughout the contracts. -/
def zeroAddr : String := "0x0000000000000000000000000000000000000000"

/-- The empty string, the none value returned by NFT.get_approved. -/
def emptyStr : String := ""

/-- Address literal used in concrete scenarios. -/
def addrA : String := "0xA"

/-- Address literal used in concrete scenarios. -/
def addrB : String := "0xB"

/-- Address literal used in concrete scenarios. -/
def addrC : String := "0xC"

/-- Address literal used in concrete scenarios. -/
def addrD : String := "0xD"

/-- One positional field of an emitted event (string, integer or boolean). -/
inductive EField where
  | str (v : String)
  | int (v : Int)
  | bool (v : Bool)
  deriving DecidableEq

/-- One emitted event: name and ordered field values, as passed to the host emit. -/
structure Event where
  name : String
  fields : List EField
  deriving DecidableEq

def evTransfer : String := "Transfer"
def evApproval : String := "Approval"
def evApprovalForAll : String := "ApprovalForAll"
def evOwnershipTransferred : String := "OwnershipTransferred"

/-- Outcome of a contract operation: success, or a raised exception together
with the state at the moment of the raise (Python keeps mutations already made). -/
inductive Res (ε : Type) (σ : Type) where
  | ok (s : σ)
  | err (e : ε) (s : σ)
  deriving DecidableEq

/-- The state reached by an operation, whether it succeeded or raised. -/
def resState : Res ε σ → σ
  | .ok s => s
  | .err _ s => s

/-- Exception messages raised by Token and by the Burnable mixin on a Token. -/
inductive TErr where
  | transferToZero
  | amountNotPositive
  | insufficientBalance
  | approveToZero
  | insufficientAllowance
  | mintToZero
  | mintNotPositive
  | burnExceedsBalance
  | burnExceedsAllowance
  | keyError
  deriving DecidableEq

/-- Persistent state of a Token contract (Token.__init__). -/
structure TokenState where
  total_supply : Int
  balances : List (String × Int)
  allowances : List (String × List (String × Int))
  events : List Event
  deriving DecidableEq

/-- A fresh Token: zero supply, empty balances and allowances. -/
def initToken : TokenState :=
  { total_supply := 0, balances := [], allowances := [], events := [] }

namespace Token

/-- Token.balance_of. -/
def balance_of (s : TokenState) (account : String) : Int :=
  dgetD s.balances account 0

/-- Token.allowance. -/
def allowance (s : TokenState) (owner spender : String) : Int :=
  match dget s.allowances owner with
  | none => 0
  | some inner => dgetD inner spender 0

/-- Token.transfer, with the caller resolved by the host passed explicitly. -/
def transfer (sender to_addr : String) (amount : Int) (s : TokenState) :
    Res TErr TokenState :=
  if to_addr = zeroAddr then .err .transferToZero s
  else if amount ≤ 0 then .err .amountNotPositive s
  else
    let sender_balance := dgetD s.balances sender 0
    if sender_balance < amount then .err .insufficientBalance s
    else
      let b₁ := dset s.balances sender (sender_balance - amount)
      let b₂ := dset b₁ to_addr (dgetD b₁ to_addr 0 + amount)
      .ok { s with balances := b₂,
                   events := s.events ++ [⟨evTransfer, [.str sender, .str to_addr, .int amount]⟩] }

/-- Token.approve. -/
def approve (sender spender : String) (amount : Int) (s : TokenState) :
    Res TErr TokenState :=
  if spender = zeroAddr then .err .approveToZero s
  else
    let inner := (dget s.allowances sender).getD []
    .ok { s with allowances := dset s.allowances sender (dset inner spender amount),
                 events := s.events ++ [⟨evApproval, [.str sender, .str spender, .int amount]⟩] }

/-- Token.transfer_from. When the allowance and balance checks pass but the
owner has no entry in the allowances dict (possible when amount is not
positive), the write allowances[from_addr][sender] raises KeyError after the
balances have already been mutated, exactly as the Python does. -/
def transfer_from (sender from_addr to_addr : String) (amount : Int) (s : TokenState) :
    Res TErr TokenState :=
  if to_addr = zeroAddr then .err .transferToZero s
  else
    let current_allowance := allowance s from_addr sender
    if current_allowance < amount then .err .insufficientAllowance s
    else
      let from_balance := dgetD s.balances from_addr 0
      if from_balance < amount then .err .insufficientBalance s
      else
        let b₁ := dset s.balances from_addr (from_balance - amount)
        let b₂ := dset b₁ to_addr (dgetD b₁ to_addr 0 + amount)
        let s₁ := { s with balances := b₂ }
        match dget s₁.allowances from_addr with
        | none => .err .keyError s₁
        | some inner =>
          .ok { s₁ with
                allowances := dset s₁.allowances from_addr
                                (dset inner sender (current_allowance - amount)),
                events := s₁.events ++
                  [⟨evTransfer, [.str from_addr, .str to_addr, .int amount]⟩] }

/-- Token._mint. -/
def _mint (account : String) (amount : Int) (s : TokenState) :
    Res TErr TokenState :=
  if account = zeroAddr then .err .mintToZero s
  else if amount ≤ 0 then .err .mintNotPositive s
  else
    .ok { s with total_supply := s.total_supply + amount,
                 balances := dset s.balances account (dgetD s.balances account 0 + amount),
                 events := s.events ++ [⟨evTransfer, [.str zeroAddr, .str account, .int amount]⟩] }

/-- Token._burn. -/
def _burn (account : String) (amount : Int) (s : TokenState) :
    Res TErr TokenState :=
  let account_balance := dgetD s.balances account 0
  if account_balance < amount then .err .burnExceedsBalance s
  else
    .ok { s with balances := dset s.balances account (account_balance - amount),
                 total_supply := s.total_supply - amount,
                 events := s.events ++ [⟨evTransfer, [.str account, .str zeroAddr, .int amount]⟩] }

end Token

namespace Burnable

/-- Burnable.burn_from on a Token contract: checks and decreases the
allowance, then delegates to_addr Token._burn. The allowance write happens
before the balance check inside _burn, exactly as in the Python. -/
def burn_from (sender account : String) (amount : Int) (s : TokenState) :
    Res TErr TokenState :=
  let current_allowance := Token.allowance s account sender
  if current_allowance < amount then .err .burnExceedsAllowance s
  else
    match dget s.allowances account with
    | none => .err .keyError s
    | some inner =>
      let s₁ := { s with allowances := dset s.allowances account
                           (dset inner sender (current_allowance - amount)) }
      Token._burn account amount s₁

/-- Burnable.burn on a Token contract: delegates to_addr Token._burn on the caller. -/
def burn (sender : String) (amount : Int) (s : TokenState) :
    Res TErr TokenState :=
  Token._burn sender amount s

end Burnable

/-- States of a FungibleLedger reachable from a fresh Token by successful
calls to transfer, approve, transfer_from, _mint and _burn, for arbitrary
host-resolved callers and arguments. -/
inductive TokenReach : TokenState → Prop where
  | init : TokenReach initToken
  | transfer (sender to_addr : String) (amount : Int) (s s₁ : TokenState) :
      TokenReach s → Token.transfer sender to_addr amount s = .ok s₁ → TokenReach s₁
  | approve (sender spender : String) (amount : Int) (s s₁ : TokenState) :
      TokenReach s → Token.approve sender spender amount s = .ok s₁ → TokenReach s₁
  | transfer_from (sender from_addr to_addr : String) (amount : Int) (s s₁ : TokenState) :
      TokenReach s → Token.transfer_from sender from_addr to_addr amount s = .ok s₁ →
      TokenReach s₁
  | mint (account : String) (amount : Int) (s s₁ : TokenState) :
      TokenReach s → Token._mint account amount s = .ok s₁ → TokenReach s₁
  | burn (account : String) (amount : Int) (s s₁ : TokenState) :
      TokenReach s → Token._burn account amount s = .ok s₁ → TokenReach s₁

deriving instance DecidableEq for Except

/-- Exception messages raised by NFT. -/
inductive NErr where
  | balanceQueryZero
  | nonexistentToken
  | notAuthorized
  | transferToZero
  | incorrectOwner
  | approvalToOwner
  | approveNotAuthorized
  | approveToCaller
  | mintToZero
  | alreadyMinted
  | keyError
  deriving DecidableEq

/-- Persistent state of an NFT contract (NFT.__init__). -/
structure NFTState where
  owners : List (Int × String)
  balances : List (String × Int)
  token_approvals : List (Int × String)
  operator_approvals : List (String × List (String × Bool))
  next_token_id : Int
  events : List Event
  deriving DecidableEq

/-- A fresh NFT collection: no owners, balances or approvals. -/
def initNFT : NFTState :=
  { owners := [], balances := [], token_approvals := [],
    operator_approvals := [], next_token_id := 1, events := [] }

namespace NFT

/-- NFT.owner_of. Python treats both a missing entry and an empty-string
owner as falsy, raising the nonexistent-token error for either. -/
def owner_of (s : NFTState) (token_id : Int) : Except NErr String :=
  match dget s.owners token_id with
  | none => .error .nonexistentToken
  | some owner => if owner = emptyStr then .error .nonexistentToken else .ok owner

/-- NFT.is_approved_for_all. -/
def is_approved_for_all (s : NFTState) (owner operator : String) : Bool :=
  match dget s.operator_approvals owner with
  | none => false
  | some inner => dgetD inner operator false

/-- NFT.get_approved: raises for a token id with no owners entry, otherwise
returns the approval slot or the empty string (the none value). -/
def get_approved (s : NFTState) (token_id : Int) : Except NErr String :=
  if dmem s.owners token_id then .ok (dgetD s.token_approvals token_id emptyStr)
  else .error .nonexistentToken

/-- NFT._is_approved_or_owner. A missing or empty-string owner is falsy in
Python, so the check returns false for such tokens; otherwise the caller must
be the owner, the approved delegate, or an approved operator. -/
def _is_approved_or_owner (s : NFTState) (spender : String) (token_id : Int) : Bool :=
  match dget s.owners token_id with
  | none => false
  | some owner =>
    if owner = emptyStr then false
    else decide (spender = owner)
      || decide (dgetD s.token_approvals token_id emptyStr = spender)
      || is_approved_for_all s owner spender

/-- NFT.transfer_from. The Python decrements balances[from_addr] with plain
indexing, which raises KeyError when from_addr has no balances entry, after
the token approval has already been cleared. -/
def transfer_from (sender from_addr to_addr : String) (token_id : Int)
    (s : NFTState) : Res NErr NFTState :=
  if ¬ _is_approved_or_owner s sender token_id then .err .notAuthorized s
  else if to_addr = zeroAddr then .err .transferToZero s
  else if ¬ (dget s.owners token_id = some from_addr) then .err .incorrectOwner s
  else
    let ta := ddel s.token_approvals token_id
    match dget s.balances from_addr with
    | none => .err .keyError { s with token_approvals := ta }
    | some fb =>
      let b₁ := dset s.balances from_addr (fb - 1)
      .ok { s with token_approvals := ta,
                   balances := dset b₁ to_addr (dgetD b₁ to_addr 0 + 1),
                   owners := dset s.owners token_id to_addr,
                   events := s.events ++
                     [⟨evTransfer, [.str from_addr, .str to_addr, .int token_id]⟩] }

/-- NFT.safe_transfer_from: delegates to transfer_from unchanged. -/
def safe_transfer_from (sender from_addr to_addr : String) (token_id : Int)
    (s : NFTState) : Res NErr NFTState :=
  transfer_from sender from_addr to_addr token_id s

/-- NFT.approve. -/
def approve (sender to_addr : String) (token_id : Int) (s : NFTState) :
    Res NErr NFTState :=
  match dget s.owners token_id with
  | none => .err .nonexistentToken s
  | some owner =>
    if owner = emptyStr then .err .nonexistentToken s
    else if to_addr = owner then .err .approvalToOwner s
    else if sender ≠ owner ∧ is_approved_for_all s owner sender = false then
      .err .approveNotAuthorized s
    else
      .ok { s with token_approvals := dset s.token_approvals token_id to_addr,
                   events := s.events ++
                     [⟨evApproval, [.str owner, .str to_addr, .int token_id]⟩] }

/-- NFT.set_approval_for_all. -/
def set_approval_for_all (sender operator : String) (approved : Bool)
    (s : NFTState) : Res NErr NFTState :=
  if operator = sender then .err .approveToCaller s
  else
    let inner := (dget s.operator_approvals sender).getD []
    .ok { s with operator_approvals :=
                   dset s.operator_approvals sender (dset inner operator approved),
                 events := s.events ++
                   [⟨evApprovalForAll, [.str sender, .str operator, .bool approved]⟩] }

/-- NFT._mint: rejects the zero address and token ids that currently have an
owners entry, then increments the recipient count and records ownership. -/
def _mint (to_addr : String) (token_id : Int) (s : NFTState) :
    Res NErr NFTState :=
  if to_addr = zeroAddr then .err .mintToZero s
  else if dmem s.owners token_id then .err .alreadyMinted s
  else
    .ok { s with balances := dset s.balances to_addr (dgetD s.balances to_addr 0 + 1),
                 owners := dset s.owners token_id to_addr,
                 events := s.events ++
                   [⟨evTransfer, [.str zeroAddr, .str to_addr, .int token_id]⟩] }

/-- NFT._burn. The balance decrement uses plain indexing and raises KeyError
for an owner with no balances entry, after the approval has been cleared. -/
def _burn (token_id : Int) (s : NFTState) : Res NErr NFTState :=
  match dget s.owners token_id with
  | none => .err .nonexistentToken s
  | some owner =>
    if owner = emptyStr then .err .nonexistentToken s
    else
      let ta := ddel s.token_approvals token_id
      match dget s.balances owner with
      | none => .err .keyError { s with token_approvals := ta }
      | some ob =>
        .ok { s with token_approvals := ta,
                     balances := dset s.balances owner (ob - 1),
                     owners := ddel s.owners token_id,
                     events := s.events ++
                       [⟨evTransfer, [.str owner, .str zeroAddr, .int token_id]⟩] }

end NFT

/-- States of a NonFungibleLedger reachable from a fresh NFT by successful
calls to _mint, _burn, transfer_from, approve and set_approval_for_all, for
arbitrary host-resolved callers and arguments. -/
inductive NFTReach : NFTState → Prop where
  | init : NFTReach initNFT
  | mint (to_addr : String) (token_id : Int) (s s₁ : NFTState) :
      NFTReach s → NFT._mint to_addr token_id s = .ok s₁ → NFTReach s₁
  | burn (token_id : Int) (s s₁ : NFTState) :
      NFTReach s → NFT._burn token_id s = .ok s₁ → NFTReach s₁
  | transfer_from (sender from_addr to_addr : String) (token_id : Int) (s s₁ : NFTState) :
      NFTReach s → NFT.transfer_from sender from_addr to_addr token_id s = .ok s₁ →
      NFTReach s₁
  | approve (sender to_addr : String) (token_id : Int) (s s₁ : NFTState) :
      NFTReach s → NFT.approve sender to_addr token_id s = .ok s₁ → NFTReach s₁
  | set_approval_for_all (sender operator : String) (approved : Bool) (s s₁ : NFTState) :
      NFTReach s → NFT.set_approval_for_all sender operator approved s = .ok s₁ →
      NFTReach s₁

/-- Exception raised by the Ownable mixin. -/
inductive OErr where
  | notOwner
  | newOwnerZero
  deriving DecidableEq

/-- Persistent state of the Ownable mixin. -/
structure OwnState where
  owner : String
  events : List Event
  deriving DecidableEq

namespace Ownable

/-- Ownable.only_owner: the guard raised before every privileged operation. -/
def only_owner (sender : String) (s : OwnState) : Option OErr :=
  if sender ≠ s.owner then some .notOwner else none

/-- Ownable.transfer_ownership. -/
def transfer_ownership (sender new_owner : String) (s : OwnState) :
    Res OErr OwnState :=
  match only_owner sender s with
  | some e => .err e s
  | none =>
    if new_owner = zeroAddr then .err .newOwnerZero s
    else .ok { owner := new_owner,
               events := s.events ++
                 [⟨evOwnershipTransferred, [.str s.owner, .str new_owner]⟩] }

/-- Ownable.renounce_ownership. -/
def renounce_ownership (sender : String) (s : OwnState) : Res OErr OwnState :=
  match only_owner sender s with
  | some e => .err e s
  | none =>
    .ok { owner := zeroAddr,
          events := s.events ++
            [⟨evOwnershipTransferred, [.str s.owner, .str zeroAddr]⟩] }

end Ownable

/-- One step of the Ownable state machine: a successful mutating call by an
authenticated caller. Per the specification the host resolves the caller of a
top-level operation to an authenticated invoker, and the zero address is the
reserved nobody sentinel, so callers are never the zero address. -/
inductive OwnStep : OwnState → OwnState → Prop where
  | transfer (sender new_owner : String) (s s₁ : OwnState) :
      sender ≠ zeroAddr → Ownable.transfer_ownership sender new_owner s = .ok s₁ →
      OwnStep s s₁
  | renounce (sender : String) (s s₁ : OwnState) :
      sender ≠ zeroAddr → Ownable.renounce_ownership sender s = .ok s₁ →
      OwnStep s s₁

/-- States reachable from a given Ownable state by successful calls. -/
inductive OwnReachFrom (s : OwnState) : OwnState → Prop where
  | refl : OwnReachFrom s s
  | step (t u : OwnState) : OwnReachFrom s t → OwnStep t u → OwnReachFrom s u

/-- Reentrancy guard status values (class constants of ReentrancyGuard). -/
def NOT_ENTERED : Nat := 1

/-- Reentrancy guard status value while a protected call is in flight. -/
def ENTERED : Nat := 2

/-- Errors of a guarded call: the reentrancy rejection or a failure raised by
the protected body itself. -/
inductive GErr where
  | reentrantCall
  | bodyFail
  deriving DecidableEq

/-- Result of a guarded call over an abstract contract state: the guard
status, the contract state and the raised error, if any. -/
structure GRes (σ : Type) where
  status : Nat
  st : σ
  err : Option GErr
  deriving DecidableEq

/-- ReentrancyGuard.nonreentrant: raises on reentry, otherwise latches the
status to ENTERED. -/
def nonreentrant (status : Nat) : Res GErr Nat :=
  if status = ENTERED then .err .reentrantCall status else .ok ENTERED

/-- ReentrancyGuard._reset_reentrancy_guard. -/
def _reset_reentrancy_guard (_ : Nat) : Nat := NOT_ENTERED

/-- A protected operation written with the nonreentrant_decorator wrapper:
check and latch the guard, run the body, and reset the status in a finally
block on every exit path. The body receives the latched status and may
mutate guard status and contract state; its result carries an error when it
raises. -/
def decoratorCall (body : Nat → σ → GRes σ) (status : Nat) (s : σ) : GRes σ :=
  if status = ENTERED then ⟨status, s, some .reentrantCall⟩
  else
    let r := body ENTERED s
    ⟨NOT_ENTERED, r.st, r.err⟩

/-- A protected operation written with the documented method pattern: call
nonreentrant() at the start of the body and _reset_reentrancy_guard() at its
end. When the body raises, the reset at the end is never executed and the
exception propagates with the guard still latched. -/
def methodPatternCall (body : Nat → σ → GRes σ) (status : Nat) (s : σ) : GRes σ :=
  if status = ENTERED then ⟨status, s, some .reentrantCall⟩
  else
    let r := body ENTERED s
    match r.err with
    | some e => ⟨r.status, r.st, some e⟩
    | none => ⟨_reset_reentrancy_guard r.status, r.st, none⟩

theorem vsum_dset_getD [DecidableEq α] (d : List (α × Int)) (k : α) (v : Int) :
    vsum (dset d k v) = vsum d + v - dgetD d k 0 := by
  simpa [dgetD] using vsum_dset d k v

theorem transfer_ok_sum (sender to_addr : String) (amount : Int)
    (s s₁ : TokenState) (h : Token.transfer sender to_addr amount s = .ok s₁) :
    vsum s₁.balances = vsum s.balances ∧ s₁.total_supply = s.total_supply := by
  unfold Token.transfer at h
  dsimp only at h
  split at h
  · simp at h
  · split at h
    · simp at h
    · split at h
      · simp at h
      · cases h
        constructor
        · simp only [vsum_dset_getD]
          ring
        · rfl

theorem approve_ok_sum (sender spender : String) (amount : Int)
    (s s₁ : TokenState) (h : Token.approve sender spender amount s = .ok s₁) :
    s₁.balances = s.balances ∧ s₁.total_supply = s.total_supply := by
  unfold Token.approve at h
  split at h
  · simp at h
  · cases h
    exact ⟨rfl, rfl⟩

theorem transfer_from_ok_sum (sender from_addr to_addr : String) (amount : Int)
    (s s₁ : TokenState)
    (h : Token.transfer_from sender from_addr to_addr amount s = .ok s₁) :
    vsum s₁.balances = vsum s.balances ∧ s₁.total_supply = s.total_supply := by
  unfold Token.transfer_from at h
  dsimp only at h
  split at h
  · simp at h
  · split at h
    · simp at h
    · split at h
      · simp at h
      · split at h
        · simp at h
        · cases h
          constructor
          · simp only [vsum_dset_getD]
            ring
          · rfl

theorem mint_ok_sum (account : String) (amount : Int) (s s₁ : TokenState)
    (h : Token._mint account amount s = .ok s₁) :
    vsum s₁.balances = vsum s.balances + amount ∧
      s₁.total_supply = s.total_supply + amount := by
  unfold Token._mint at h
  split at h
  · simp at h
  · split at h
    · simp at h
    · cases h
      constructor
      · simp only [vsum_dset_getD]
        ring
      · rfl

theorem burn_ok_sum (account : String) (amount : Int) (s s₁ : TokenState)
    (h : Token._burn account amount s = .ok s₁) :
    vsum s₁.balances = vsum s.balances - amount ∧
      s₁.total_supply = s.total_supply - amount := by
  unfold Token._burn at h
  dsimp only at h
  split at h
  · simp at h
  · cases h
    constructor
    · simp only [vsum_dset_getD]
      ring
    · rfl

/-- Claim C1: in every state of a FungibleLedger reachable from a fresh Token
by successful calls to transfer, approve, transfer_from, _mint and _burn, the
sum of all values in balances equals total_supply. -/
theorem C1_token_sum_eq_total_supply (s : TokenState) (h : TokenReach s) :
    vsum s.balances = s.total_supply := by
  induction h with
  | init => rfl
  | transfer sender to_addr amount s s₁ _ hop ih =>
    obtain ⟨hb, ht⟩ := transfer_ok_sum sender to_addr amount s s₁ hop
    rw [hb, ht, ih]
  | approve sender spender amount s s₁ _ hop ih =>
    obtain ⟨hb, ht⟩ := approve_ok_sum sender spender amount s s₁ hop
    rw [hb, ht, ih]
  | transfer_from sender from_addr to_addr amount s s₁ _ hop ih =>
    obtain ⟨hb, ht⟩ := transfer_from_ok_sum sender from_addr to_addr amount s s₁ hop
    rw [hb, ht, ih]
  | mint account amount s s₁ _ hop ih =>
    obtain ⟨hb, ht⟩ := mint_ok_sum account amount s s₁ hop
    rw [hb, ht, ih]
  | burn account amount s s₁ _ hop ih =>
    obtain ⟨hb, ht⟩ := burn_ok_sum account amount s s₁ hop
    rw [hb, ht, ih]

/-- Witness for C1 at a concrete reachable state: a fresh Token after a
successful mint of 1000 to one holder. -/
theorem C1_token_sum_eq_total_supply_witness :
    vsum (resState (Token._mint addrA 1000 initToken)).balances
      = (resState (Token._mint addrA 1000 initToken)).total_supply :=
  C1_token_sum_eq_total_supply (resState (Token._mint addrA 1000 initToken))
    (TokenReach.mint addrA 1000 initToken
      (resState (Token._mint addrA 1000 initToken)) TokenReach.init (by decide))

theorem dgetD_dset [DecidableEq α] (d : List (α × β)) (k k' : α) (v dflt : β) :
    dgetD (dset d k v) k' dflt = if k' = k then v else dgetD d k' dflt := by
  by_cases h : k' = k
  · subst h
    simp [dgetD, dget_dset_self]
  · simp [dgetD, dget_dset_ne d k k' v h, h]

/-- Number of tokens in the owners dict held by address `a`. -/
def countOwned (owners : List (Int × String)) (a : String) : Nat :=
  owners.countP (fun p => decide (p.2 = a))

theorem countOwned_pos (owners : List (Int × String)) (token_id : Int)
    (a : String) (h : dget owners token_id = some a) : 1 ≤ countOwned owners a := by
  have hm := dget_mem owners token_id a h
  have : 0 < countOwned owners a := by
    unfold countOwned
    rw [List.countP_pos_iff]
    exact ⟨(token_id, a), hm, by simp⟩
  omega

/-- The inductive invariant of the NonFungibleLedger: every address balance
equals the number of tokens it owns, and the balance sum equals the number
of owned tokens. -/
def NFTInv (s : NFTState) : Prop :=
  (∀ a, dgetD s.balances a 0 = (countOwned s.owners a : Int)) ∧
    vsum s.balances = (s.owners.length : Int)


theorem countOwned_append_single (owners : List (Int × String)) (token_id : Int)
    (b a : String) :
    countOwned (owners ++ [(token_id, b)]) a
      = countOwned owners a + (if b = a then 1 else 0) := by
  simp only [countOwned, List.countP_append, List.countP_cons, List.countP_nil]
  by_cases h : b = a <;> simp [h]

theorem countOwned_dset (owners : List (Int × String)) (token_id : Int)
    (b w a : String) (h : dget owners token_id = some w) :
    countOwned (dset owners token_id b) a + (if w = a then 1 else 0)
      = countOwned owners a + (if b = a then 1 else 0) := by
  have hc := countP_dset_of_dget_some (fun p => decide (p.2 = a))
    owners token_id b w h
  simp only [decide_eq_true_eq] at hc
  simpa [countOwned] using hc

theorem countOwned_ddel (owners : List (Int × String)) (token_id : Int)
    (w a : String) (h : dget owners token_id = some w) :
    countOwned (ddel owners token_id) a + (if w = a then 1 else 0)
      = countOwned owners a := by
  have hc := countP_ddel_of_dget_some (fun p => decide (p.2 = a))
    owners token_id w h
  simp only [decide_eq_true_eq] at hc
  simpa [countOwned] using hc

theorem nft_mint_inv (to_addr : String) (token_id : Int) (s s₁ : NFTState)
    (h : NFT._mint to_addr token_id s = .ok s₁) (hinv : NFTInv s) : NFTInv s₁ := by
  obtain ⟨hpt, hsum⟩ := hinv
  unfold NFT._mint at h
  split at h
  · cases h
  · split at h
    · cases h
    · rename_i hmem
      have hnone : dget s.owners token_id = none := by
        rcases hh : dget s.owners token_id with _ | v
        · rfl
        · exact absurd (by simp [dmem, hh]) hmem
      cases h
      have happ := dset_of_dget_none s.owners token_id to_addr hnone
      constructor
      · intro a
        show dgetD (dset s.balances to_addr (dgetD s.balances to_addr 0 + 1)) a 0
          = (countOwned (dset s.owners token_id to_addr) a : Int)
        rw [dgetD_dset, happ, countOwned_append_single]
        have hp := hpt a
        by_cases ha : a = to_addr
        · subst ha
          rw [if_pos rfl, if_pos rfl, hp]
          push_cast
          ring
        · have hne : ¬ (to_addr = a) := fun hh => ha hh.symm
          rw [if_neg ha, if_neg hne, hp]
          push_cast
          ring
      · show vsum (dset s.balances to_addr (dgetD s.balances to_addr 0 + 1))
          = ((dset s.owners token_id to_addr).length : Int)
        rw [vsum_dset_getD, happ, hsum]
        simp
        ring

theorem nft_burn_inv (token_id : Int) (s s₁ : NFTState)
    (h : NFT._burn token_id s = .ok s₁) (hinv : NFTInv s) : NFTInv s₁ := by
  obtain ⟨hpt, hsum⟩ := hinv
  unfold NFT._burn at h
  rcases hown : dget s.owners token_id with _ | owner
  · rw [hown] at h
    cases h
  · rw [hown] at h
    dsimp only at h
    split at h
    · cases h
    · rcases hbal : dget s.balances owner with _ | ob
      · rw [hbal] at h
        cases h
      · rw [hbal] at h
        cases h
        have hob : dgetD s.balances owner 0 = ob := by simp [dgetD, hbal]
        have hcnt := hpt owner
        rw [hob] at hcnt
        have hlen := length_ddel_of_dget_some s.owners token_id owner hown
        have hpos := countOwned_pos s.owners token_id owner hown
        constructor
        · intro a
          show dgetD (dset s.balances owner (ob - 1)) a 0
            = (countOwned (ddel s.owners token_id) a : Int)
          rw [dgetD_dset]
          have hc := countOwned_ddel s.owners token_id owner a hown
          by_cases ha : a = owner
          · subst ha
            rw [if_pos rfl] at hc ⊢
            omega
          · have hne : ¬ (owner = a) := fun hh => ha hh.symm
            rw [if_neg hne] at hc
            rw [if_neg ha, hpt a]
            omega
        · show vsum (dset s.balances owner (ob - 1))
            = ((ddel s.owners token_id).length : Int)
          rw [vsum_dset_getD, hob, hsum]
          omega

theorem nft_transfer_from_inv (sender from_addr to_addr : String)
    (token_id : Int) (s s₁ : NFTState)
    (h : NFT.transfer_from sender from_addr to_addr token_id s = .ok s₁)
    (hinv : NFTInv s) : NFTInv s₁ := by
  obtain ⟨hpt, hsum⟩ := hinv
  unfold NFT.transfer_from at h
  split at h
  · cases h
  · split at h
    · cases h
    · split at h
      · cases h
      · rename_i hown₀
        have hown : dget s.owners token_id = some from_addr := by
          by_contra hc
          exact hown₀ hc
        dsimp only at h
        rcases hbal : dget s.balances from_addr with _ | fb
        · rw [hbal] at h
          cases h
        · rw [hbal] at h
          cases h
          have hfb : dgetD s.balances from_addr 0 = fb := by simp [dgetD, hbal]
          have hcf : fb = (countOwned s.owners from_addr : Int) := by
            rw [← hfb]; exact hpt from_addr
          have hlen := length_dset_of_dget_some s.owners token_id to_addr from_addr hown
          constructor
          · intro a
            show dgetD (dset (dset s.balances from_addr (fb - 1)) to_addr
                  (dgetD (dset s.balances from_addr (fb - 1)) to_addr 0 + 1)) a 0
              = (countOwned (dset s.owners token_id to_addr) a : Int)
            rw [dgetD_dset, dgetD_dset, dgetD_dset]
            have hc := countOwned_dset s.owners token_id to_addr from_addr a hown
            have hpa := hpt a
            have hpos := countOwned_pos s.owners token_id from_addr hown
            by_cases hat : a = to_addr
            · by_cases haf : a = from_addr
              · have htf : to_addr = from_addr := hat.symm.trans haf
                rw [if_pos hat, if_pos htf]
                rw [if_pos haf.symm, if_pos hat.symm] at hc
                have hfa : fb = (countOwned s.owners a : Int) := by rw [haf]; exact hcf
                omega
              · have hntf : ¬ (to_addr = from_addr) := fun hh => haf (hat.trans hh)
                have hnf : ¬ (from_addr = a) := fun hh => haf hh.symm
                rw [if_pos hat, if_neg hntf]
                rw [if_neg hnf, if_pos hat.symm] at hc
                have hpa2 : dgetD s.balances to_addr 0 = (countOwned s.owners a : Int) := by
                  rw [← hat]; exact hpa
                rw [hpa2]
                omega
            · by_cases haf : a = from_addr
              · have hnt : ¬ (to_addr = a) := fun hh => hat hh.symm
                rw [if_neg hat, if_pos haf]
                rw [if_pos haf.symm, if_neg hnt] at hc
                have hfa : fb = (countOwned s.owners a : Int) := by rw [haf]; exact hcf
                have hpos2 : 1 ≤ countOwned s.owners a := by rw [haf]; exact hpos
                omega
              · have hnt : ¬ (to_addr = a) := fun hh => hat hh.symm
                have hnf : ¬ (from_addr = a) := fun hh => haf hh.symm
                rw [if_neg hat, if_neg haf]
                rw [if_neg hnf, if_neg hnt] at hc
                rw [hpa]
                omega
          · show vsum (dset (dset s.balances from_addr (fb - 1)) to_addr
                  (dgetD (dset s.balances from_addr (fb - 1)) to_addr 0 + 1))
              = ((dset s.owners token_id to_addr).length : Int)
            rw [vsum_dset_getD, vsum_dset_getD, hfb, hlen, hsum]
            ring

theorem nft_approve_fields (sender to_addr : String) (token_id : Int)
    (s s₁ : NFTState) (h : NFT.approve sender to_addr token_id s = .ok s₁) :
    s₁.balances = s.balances ∧ s₁.owners = s.owners := by
  unfold NFT.approve at h
  rcases hown : dget s.owners token_id with _ | owner
  · rw [hown] at h
    cases h
  · rw [hown] at h
    dsimp only at h
    split at h
    · cases h
    · split at h
      · cases h
      · split at h
        · cases h
        · cases h
          exact ⟨rfl, rfl⟩

theorem nft_set_approval_fields (sender operator : String) (approved : Bool)
    (s s₁ : NFTState)
    (h : NFT.set_approval_for_all sender operator approved s = .ok s₁) :
    s₁.balances = s.balances ∧ s₁.owners = s.owners := by
  unfold NFT.set_approval_for_all at h
  split at h
  · cases h
  · cases h
    exact ⟨rfl, rfl⟩

theorem nftInv_of_reach (s : NFTState) (h : NFTReach s) : NFTInv s := by
  induction h with
  | init =>
    constructor
    · intro a
      simp [initNFT, dgetD, dget, countOwned]
    · rfl
  | mint to_addr token_id s s₁ _ hop ih => exact nft_mint_inv to_addr token_id s s₁ hop ih
  | burn token_id s s₁ _ hop ih => exact nft_burn_inv token_id s s₁ hop ih
  | transfer_from sender from_addr to_addr token_id s s₁ _ hop ih =>
    exact nft_transfer_from_inv sender from_addr to_addr token_id s s₁ hop ih
  | approve sender to_addr token_id s s₁ _ hop ih =>
    obtain ⟨hb, ho⟩ := nft_approve_fields sender to_addr token_id s s₁ hop
    exact ⟨fun a => by rw [hb, ho]; exact ih.1 a, by rw [hb, ho]; exact ih.2⟩
  | set_approval_for_all sender operator approved s s₁ _ hop ih =>
    obtain ⟨hb, ho⟩ := nft_set_approval_fields sender operator approved s s₁ hop
    exact ⟨fun a => by rw [hb, ho]; exact ih.1 a, by rw [hb, ho]; exact ih.2⟩

/-- Claim C5: in every state of a NonFungibleLedger reachable from a fresh NFT
by successful calls to _mint, _burn, transfer_from, approve and
set_approval_for_all, the sum of all balance values equals the number of
entries in owners, and the recorded owner of every token has balance at
least 1. -/
theorem C5_nft_sum_eq_owner_count (s : NFTState) (h : NFTReach s) :
    vsum s.balances = (s.owners.length : Int) ∧
      ∀ token_id owner, dget s.owners token_id = some owner →
        1 ≤ dgetD s.balances owner 0 := by
  obtain ⟨hpt, hsum⟩ := nftInv_of_reach s h
  refine ⟨hsum, fun token_id owner hown => ?_⟩
  rw [hpt owner]
  have := countOwned_pos s.owners token_id owner hown
  omega

/-- Witness for C5 at a concrete reachable state: a fresh NFT after a
successful mint of token 1. -/
theorem C5_nft_sum_eq_owner_count_witness :
    vsum (resState (NFT._mint addrA 1 initNFT)).balances
        = ((resState (NFT._mint addrA 1 initNFT)).owners.length : Int) ∧
      ∀ token_id owner,
        dget (resState (NFT._mint addrA 1 initNFT)).owners token_id = some owner →
          1 ≤ dgetD (resState (NFT._mint addrA 1 initNFT)).balances owner 0 :=
  C5_nft_sum_eq_owner_count (resState (NFT._mint addrA 1 initNFT))
    (NFTReach.mint addrA 1 initNFT (resState (NFT._mint addrA 1 initNFT))
      NFTReach.init (by decide))

/-- State used by the C2 scenario: mint 10 to A, then A approves B for 1. -/
def c2s1 : TokenState := resState (Token._mint addrA 10 initToken)

/-- Second state of the C2 scenario. -/
def c2s2 : TokenState := resState (Token.approve addrA addrB 1 c2s1)

/-- Third state of the C2 scenario: B moves a negative amount from A to C. -/
def c2s3 : TokenState := resState (Token.transfer_from addrB addrA addrC (-5) c2s2)

/-- Claim C2, evaluation at the failing input: transfer_from has no
positive-amount check, so in a reachable state a call with amount -5
succeeds and leaves the recipient balance negative instead of failing
with the insufficient-balance error. -/
theorem C2_transfer_from_negative_balance :
    Token._mint addrA 10 initToken = .ok c2s1 ∧
      Token.approve addrA addrB 1 c2s1 = .ok c2s2 ∧
      Token.transfer_from addrB addrA addrC (-5) c2s2 = .ok c2s3 ∧
      Token.balance_of c2s3 addrC = -5 := by
  decide

/-- State used by the C3 scenario: mint 10 to A. -/
def c3s1 : TokenState := resState (Token._mint addrA 10 initToken)

/-- Second state of the C3 scenario: A approves B for 50, above the balance. -/
def c3s2 : TokenState := resState (Token.approve addrA addrB 50 c3s1)

/-- State at the moment Burnable.burn_from raises in the C3 scenario. -/
def c3s3 : TokenState := resState (Burnable.burn_from addrB addrA 50 c3s2)

/-- Claim C3, evaluation at the failing input: Burnable.burn_from decrements
the allowance before Token._burn checks the balance, so the failing call
raises the burn-exceeds-balance error with the allowance already changed
from 50 to 0: the failed operation is not atomic. -/
theorem C3_burn_from_not_atomic :
    Token._mint addrA 10 initToken = .ok c3s1 ∧
      Token.approve addrA addrB 50 c3s1 = .ok c3s2 ∧
      Burnable.burn_from addrB addrA 50 c3s2 = .err .burnExceedsBalance c3s3 ∧
      Token.allowance c3s2 addrA addrB = 50 ∧
      Token.allowance c3s3 addrA addrB = 0 ∧
      c3s3 ≠ c3s2 := by
  decide

/-- A protected body that raises unconditionally, leaving the guard status
as it received it. -/
def raisingBody : Nat → Unit → GRes Unit :=
  fun status s => ⟨status, s, some .bodyFail⟩

/-- Claim C4, counterexample: a protected operation written in the
documented style, nonreentrant() at the start and the reset at the end of
the body, keeps the guard latched at ENTERED when its body raises, so the
guard status after the outer call completes is not NOT_ENTERED. -/
theorem C4_method_pattern_latched :
    methodPatternCall raisingBody NOT_ENTERED () =
        ⟨ENTERED, (), some .bodyFail⟩ ∧
      ¬ (methodPatternCall raisingBody NOT_ENTERED ()).status = NOT_ENTERED := by
  decide

/-- Claim C4 as amended: a nested call into the protection while the guard
is ENTERED fails with the reentrant-call error under both the decorator and
the method pattern, and an operation wrapped by nonreentrant_decorator
always ends with the guard at NOT_ENTERED, whether its body succeeds or
raises; only the decorator form restores the guard on the failure path. -/
theorem C4_guard_amended :
    (∀ (σ : Type) (body : Nat → σ → GRes σ) (s : σ),
        decoratorCall body ENTERED s = ⟨ENTERED, s, some .reentrantCall⟩) ∧
      (∀ (σ : Type) (body : Nat → σ → GRes σ) (s : σ),
        (decoratorCall body NOT_ENTERED s).status = NOT_ENTERED) ∧
      (∀ (σ : Type) (body : Nat → σ → GRes σ) (s : σ),
        methodPatternCall body ENTERED s = ⟨ENTERED, s, some .reentrantCall⟩) ∧
      nonreentrant ENTERED = .err .reentrantCall ENTERED := by
  refine ⟨fun σ body s => ?_, fun σ body s => ?_, fun σ body s => ?_, ?_⟩
  · simp [decoratorCall]
  · simp [decoratorCall, NOT_ENTERED, ENTERED]
  · simp [methodPatternCall]
  · simp [nonreentrant]

/-- Claim C10: NFT.safe_transfer_from delegates to NFT.transfer_from
unchanged, so on every starting state and input the two operations return
identical results: the same state changes, the same appended events and the
same errors. -/
theorem C10_safe_transfer_from_eq_transfer_from
    (sender from_addr to_addr : String) (token_id : Int) (s : NFTState) :
    NFT.safe_transfer_from sender from_addr to_addr token_id s
      = NFT.transfer_from sender from_addr to_addr token_id s := rfl

theorem transfer_from_ok_effects (sender from_addr to_addr : String)
    (amount : Int) (s s₁ : TokenState)
    (h : Token.transfer_from sender from_addr to_addr amount s = .ok s₁) :
    Token.allowance s₁ from_addr sender
        = Token.allowance s from_addr sender - amount ∧
      (from_addr ≠ to_addr →
        Token.balance_of s₁ from_addr = Token.balance_of s from_addr - amount ∧
          Token.balance_of s₁ to_addr = Token.balance_of s to_addr + amount) := by
  unfold Token.transfer_from at h
  dsimp only at h
  split at h
  · cases h
  · split at h
    · cases h
    · split at h
      · cases h
      · rcases hall : dget s.allowances from_addr with _ | inner
        · rw [hall] at h
          cases h
        · rw [hall] at h
          cases h
          refine ⟨?_, fun hne => ⟨?_, ?_⟩⟩
          · simp only [Token.allowance, dget_dset_self, hall]
            rw [dgetD_dset, if_pos rfl]
          · simp only [Token.balance_of]
            rw [dgetD_dset, if_neg hne, dgetD_dset, if_pos rfl]
          · simp only [Token.balance_of]
            have hne' : ¬ (to_addr = from_addr) := fun hh => hne hh.symm
            rw [dgetD_dset, if_pos rfl, dgetD_dset, if_neg hne']

/-- First state of the C6 scenario: mint 50 to A. -/
def c6t1 : TokenState := resState (Token._mint addrA 50 initToken)

/-- Second state of the C6 scenario: A approves B for 50. -/
def c6t2 : TokenState := resState (Token.approve addrA addrB 50 c6t1)

/-- Third state of the C6 scenario: B moves 50 from A to C. -/
def c6t3 : TokenState := resState (Token.transfer_from addrB addrA addrC 50 c6t2)

/-- Claim C6 as amended: on every successful Token.transfer_from with
distinct source and destination the source balance decreases by amount and
the destination balance increases by amount; on every successful
transfer_from the allowance of the caller on the source decreases by
exactly amount; and the concrete approve 50, transfer_from 50, then
transfer_from 1 scenario behaves as stated. When source and destination
are the same address the two balance writes cancel and the balance is
unchanged rather than decreased. -/
theorem C6_transfer_from_effects_amended :
    (∀ (sender from_addr to_addr : String) (amount : Int) (s s₁ : TokenState),
        Token.transfer_from sender from_addr to_addr amount s = .ok s₁ →
        Token.allowance s₁ from_addr sender
            = Token.allowance s from_addr sender - amount ∧
          (from_addr ≠ to_addr →
            Token.balance_of s₁ from_addr = Token.balance_of s from_addr - amount ∧
              Token.balance_of s₁ to_addr = Token.balance_of s to_addr + amount)) ∧
      Token._mint addrA 50 initToken = .ok c6t1 ∧
      Token.approve addrA addrB 50 c6t1 = .ok c6t2 ∧
      Token.transfer_from addrB addrA addrC 50 c6t2 = .ok c6t3 ∧
      Token.allowance c6t3 addrA addrB = 0 ∧
      Token.balance_of c6t3 addrC = 50 ∧
      Token.transfer_from addrB addrA addrC 1 c6t3 = .err .insufficientAllowance c6t3 := by
  refine ⟨?_, by decide⟩
  intro sender from_addr to_addr amount s s₁ h
  exact transfer_from_ok_effects sender from_addr to_addr amount s s₁ h

/-- Witness for the universally quantified part of the amended C6 theorem,
instantiated at the concrete scenario transfer. -/
theorem C6_transfer_from_effects_amended_witness :
    Token.allowance c6t3 addrA addrB = Token.allowance c6t2 addrA addrB - 50 ∧
      (Token.balance_of c6t3 addrA = Token.balance_of c6t2 addrA - 50 ∧
        Token.balance_of c6t3 addrC = Token.balance_of c6t2 addrC + 50) := by
  have h := C6_transfer_from_effects_amended.1 addrB addrA addrC 50 c6t2 c6t3
    (by decide)
  exact ⟨h.1, h.2 (by decide)⟩

/-- State used by the C6 counterexample: mint 100 to A, A approves B for 50. -/
def c6u1 : TokenState := resState (Token._mint addrA 100 initToken)

/-- Second state of the C6 counterexample scenario. -/
def c6u2 : TokenState := resState (Token.approve addrA addrB 50 c6u1)

/-- Result of the C6 counterexample self-transfer. -/
def c6u3 : TokenState := resState (Token.transfer_from addrB addrA addrA 50 c6u2)

/-- Claim C6, counterexample: a successful transfer_from whose source and
destination are the same address leaves the balance unchanged, so the
claimed unconditional decrease of the source balance by amount is false. -/
theorem C6_self_transfer_balance_unchanged :
    Token.transfer_from addrB addrA addrA 50 c6u2 = .ok c6u3 ∧
      Token.balance_of c6u3 addrA = 100 ∧
      ¬ (Token.balance_of c6u3 addrA = Token.balance_of c6u2 addrA - 50) := by
  decide

theorem nft_transfer_from_ok_effects (sender from_addr to_addr : String)
    (token_id : Int) (s s₁ : NFTState) (hnd : KeysNodup s.token_approvals)
    (h : NFT.transfer_from sender from_addr to_addr token_id s = .ok s₁) :
    dget s₁.token_approvals token_id = none ∧
      NFT.get_approved s₁ token_id = .ok emptyStr ∧
      dget s₁.owners token_id = some to_addr ∧
      (from_addr ≠ to_addr →
        dgetD s₁.balances from_addr 0 = dgetD s.balances from_addr 0 - 1 ∧
          dgetD s₁.balances to_addr 0 = dgetD s.balances to_addr 0 + 1) := by
  unfold NFT.transfer_from at h
  split at h
  · cases h
  · split at h
    · cases h
    · split at h
      · cases h
      · dsimp only at h
        rcases hbal : dget s.balances from_addr with _ | fb
        · rw [hbal] at h
          cases h
        · rw [hbal] at h
          cases h
          have hfb : dgetD s.balances from_addr 0 = fb := by simp [dgetD, hbal]
          refine ⟨?_, ?_, ?_, ?_⟩
          · exact dget_ddel_self s.token_approvals token_id hnd
          · simp [NFT.get_approved, dmem, dget_dset_self, dgetD,
              dget_ddel_self s.token_approvals token_id hnd]
          · exact dget_dset_self s.owners token_id to_addr
          · intro hne
            constructor
            · rw [dgetD_dset, if_neg hne, dgetD_dset, if_pos rfl, hfb]
            · have hne' : ¬ (to_addr = from_addr) := fun hh => hne hh.symm
              rw [dgetD_dset, if_pos rfl, dgetD_dset, if_neg hne']

/-- First state of the C7 scenario: mint token 1 to A. -/
def c7s1 : NFTState := resState (NFT._mint addrA 1 initNFT)

/-- Second state of the C7 scenario: A approves B for token 1. -/
def c7s2 : NFTState := resState (NFT.approve addrA addrB 1 c7s1)

/-- Third state of the C7 scenario: B transfers token 1 from A to C. -/
def c7s3 : NFTState := resState (NFT.transfer_from addrB addrA addrC 1 c7s2)

/-- Claim C7 as amended: on every successful NFT.transfer_from the per-token
approval slot is cleared, get_approved afterwards returns the empty string,
and ownership is rewritten to the destination; the owner count decreases at
the source and increases at the destination when the two addresses are
distinct; and in the concrete scenario the previously approved caller fails
with the not-authorized error on a repeated transfer. When source and
destination coincide the two count writes cancel and the count is
unchanged rather than decreased. -/
theorem C7_nft_transfer_effects_amended :
    (∀ (sender from_addr to_addr : String) (token_id : Int) (s s₁ : NFTState),
        KeysNodup s.token_approvals →
        NFT.transfer_from sender from_addr to_addr token_id s = .ok s₁ →
        dget s₁.token_approvals token_id = none ∧
          NFT.get_approved s₁ token_id = .ok emptyStr ∧
          dget s₁.owners token_id = some to_addr ∧
          (from_addr ≠ to_addr →
            dgetD s₁.balances from_addr 0 = dgetD s.balances from_addr 0 - 1 ∧
              dgetD s₁.balances to_addr 0 = dgetD s.balances to_addr 0 + 1)) ∧
      NFT._mint addrA 1 initNFT = .ok c7s1 ∧
      NFT.approve addrA addrB 1 c7s1 = .ok c7s2 ∧
      NFT.transfer_from addrB addrA addrC 1 c7s2 = .ok c7s3 ∧
      NFT.get_approved c7s3 1 = .ok emptyStr ∧
      NFT.transfer_from addrB addrA addrC 1 c7s3 = .err .notAuthorized c7s3 := by
  refine ⟨?_, by decide⟩
  intro sender from_addr to_addr token_id s s₁ hnd h
  exact nft_transfer_from_ok_effects sender from_addr to_addr token_id s s₁ hnd h

/-- Witness for the universally quantified part of the amended C7 theorem,
instantiated at the concrete scenario transfer. -/
theorem C7_nft_transfer_effects_amended_witness :
    dget c7s3.token_approvals 1 = none ∧
      NFT.get_approved c7s3 1 = .ok emptyStr ∧
      dget c7s3.owners 1 = some addrC ∧
      (dgetD c7s3.balances addrA 0 = dgetD c7s2.balances addrA 0 - 1 ∧
        dgetD c7s3.balances addrC 0 = dgetD c7s2.balances addrC 0 + 1) := by
  have h := C7_nft_transfer_effects_amended.1 addrB addrA addrC 1 c7s2 c7s3
    (by decide) (by decide)
  exact ⟨h.1, h.2.1, h.2.2.1, h.2.2.2 (by decide)⟩

/-- Result of the C7 counterexample self-transfer of token 1 by its owner. -/
def c7u2 : NFTState := resState (NFT.transfer_from addrA addrA addrA 1 c7s1)

/-- Claim C7, counterexample: a successful transfer_from whose source and
destination are the same address leaves the owner count unchanged, so the
claimed unconditional decrease of the source count by 1 is false. -/
theorem C7_nft_self_transfer_count_unchanged :
    NFT.transfer_from addrA addrA addrA 1 c7s1 = .ok c7u2 ∧
      dgetD c7u2.balances addrA 0 = 1 ∧
      ¬ (dgetD c7u2.balances addrA 0 = dgetD c7s1.balances addrA 0 - 1) := by
  decide

theorem renounce_ok_owner_zero (sender : String) (s s₁ : OwnState)
    (h : Ownable.renounce_ownership sender s = .ok s₁) : s₁.owner = zeroAddr := by
  unfold Ownable.renounce_ownership at h
  rcases hoo : Ownable.only_owner sender s with _ | e
  · rw [hoo] at h
    cases h
    rfl
  · rw [hoo] at h
    cases h

theorem own_step_from_zero (t u : OwnState) (hstep : OwnStep t u)
    (hz : t.owner = zeroAddr) : False := by
  cases hstep with
  | transfer sender new_owner t u hs hok =>
    unfold Ownable.transfer_ownership Ownable.only_owner at hok
    rw [hz] at hok
    rw [if_pos hs] at hok
    cases hok
  | renounce sender t u hs hok =>
    unfold Ownable.renounce_ownership Ownable.only_owner at hok
    rw [hz] at hok
    rw [if_pos hs] at hok
    cases hok

/-- Claim C8: after a successful renounce_ownership the owner is the zero
address, and in every state reachable from there by successful calls of
authenticated, non-zero callers it stays the zero address; every only_owner
check by a caller other than the zero address fails with the not-owner
error, and transfer_ownership and renounce_ownership themselves fail the
same way, leaving the state unchanged, so owner-gated calls fail
permanently. -/
theorem C8_renounce_ownership_permanent (sender : String) (s s₁ s₂ : OwnState)
    (hren : Ownable.renounce_ownership sender s = .ok s₁)
    (hreach : OwnReachFrom s₁ s₂) :
    s₂.owner = zeroAddr ∧
      ∀ caller, caller ≠ zeroAddr →
        Ownable.only_owner caller s₂ = some .notOwner ∧
          (∀ new_owner, Ownable.transfer_ownership caller new_owner s₂
            = .err .notOwner s₂) ∧
          Ownable.renounce_ownership caller s₂ = .err .notOwner s₂ := by
  have hz1 : s₁.owner = zeroAddr := renounce_ok_owner_zero sender s s₁ hren
  have hz2 : s₂.owner = zeroAddr := by
    induction hreach with
    | refl => exact hz1
    | step t u ht hstep ih => exact (own_step_from_zero t u hstep ih).elim
  refine ⟨hz2, fun caller hc => ?_⟩
  have hoo : Ownable.only_owner caller s₂ = some .notOwner := by
    unfold Ownable.only_owner
    rw [hz2]
    rw [if_pos hc]
  refine ⟨hoo, fun new_owner => ?_, ?_⟩
  · unfold Ownable.transfer_ownership
    rw [hoo]
  · unfold Ownable.renounce_ownership
    rw [hoo]

/-- Initial Ownable state of the C8 witness scenario: deployer D owns. -/
def c8s0 : OwnState := { owner := addrD, events := [] }

/-- The C8 witness state after D renounces ownership. -/
def c8s1 : OwnState := resState (Ownable.renounce_ownership addrD c8s0)

/-- Witness for C8 at a concrete input: D renounces, after which the owner
is the zero address and the only_owner guard rejects D itself. -/
theorem C8_renounce_ownership_permanent_witness :
    c8s1.owner = zeroAddr ∧
      Ownable.only_owner addrD c8s1 = some .notOwner ∧
      Ownable.renounce_ownership addrD c8s1 = .err .notOwner c8s1 := by
  have h := C8_renounce_ownership_permanent addrD c8s0 c8s1 c8s1
    (by decide) OwnReachFrom.refl
  exact ⟨h.1, (h.2 addrD (by decide)).1, (h.2 addrD (by decide)).2.2⟩

/-- Claim C9: a burned token id may be re-minted. After a successful
NFT._burn of token_id from a well-formed state (dict keys unique, as in any
Python dict), a subsequent NFT._mint of the same token_id to any non-zero
address succeeds, since _mint rejects only token ids with a current owners
entry, and it records the new owner. -/
theorem C9_remint_after_burn (token_id : Int) (to_addr : String)
    (s s₁ : NFTState) (hn : KeysNodup s.owners)
    (hburn : NFT._burn token_id s = .ok s₁) (hz : to_addr ≠ zeroAddr) :
    ∃ s₂, NFT._mint to_addr token_id s₁ = .ok s₂ ∧
      dget s₂.owners token_id = some to_addr := by
  have hnone : dget s₁.owners token_id = none := by
    unfold NFT._burn at hburn
    rcases hown : dget s.owners token_id with _ | owner
    · rw [hown] at hburn
      cases hburn
    · rw [hown] at hburn
      dsimp only at hburn
      split at hburn
      · cases hburn
      · rcases hbal : dget s.balances owner with _ | ob
        · rw [hbal] at hburn
          cases hburn
        · rw [hbal] at hburn
          cases hburn
          exact dget_ddel_self s.owners token_id hn
  refine ⟨{ s₁ with
      balances := dset s₁.balances to_addr (dgetD s₁.balances to_addr 0 + 1),
      owners := dset s₁.owners token_id to_addr,
      events := s₁.events ++
        [⟨evTransfer, [.str zeroAddr, .str to_addr, .int token_id]⟩] }, ?_, ?_⟩
  · unfold NFT._mint
    rw [if_neg hz]
    simp [dmem, hnone]
  · exact dget_dset_self s₁.owners token_id to_addr

/-- First state of the C9 witness scenario: mint token 1 to A. -/
def c9s1 : NFTState := resState (NFT._mint addrA 1 initNFT)

/-- Second state of the C9 witness scenario: token 1 burned. -/
def c9s2 : NFTState := resState (NFT._burn 1 c9s1)

/-- Witness for C9 at a concrete input: token 1 is minted to A, burned, and
can then be minted again to C. -/
theorem C9_remint_after_burn_witness :
    ∃ s₂, NFT._mint addrC 1 c9s2 = .ok s₂ ∧ dget s₂.owners 1 = some addrC :=
  C9_remint_after_burn 1 addrC c9s1 c9s2 (by decide) (by decide) (by decide)
